import Mathlib

/-!
Verification of the deterministic fallback engine of the AI-finance-assistant
backend: transaction extraction from free text
(`backend/gigachat_integration.py`, `_simple_transaction_extraction` and its
helpers), spending analytics
(`backend/app/services/spending_analytics_service.py`), and the
emotion-weighted friendliness scorer
(`backend/app/services/ai_service.py`).

Conventions of the embedding:
* Python strings are `List Char`; Python floats are modelled as `ℚ`.
* The ambient clock (`datetime.now()`) is an explicit `today : Int` parameter,
  a calendar date being encoded as its civil day number (proleptic Gregorian).
* The regular-expression calls (`re.search`, `re.finditer`) are interpreted by
  a small backtracking matcher with Python semantics: leftmost match,
  alternatives tried left to right, greedy quantifiers, one capturing group.
-/

namespace FinAssist

attribute [local semireducible] Rat.mul Rat.add Rat.sub Rat.inv

/-- Characters matched by the regex class `\s` (ASCII whitespace as used by
the Russian-language messages the code processes). -/
def isSpaceChar (c : Char) : Bool :=
  c = ' ' || c = '\t' || c = '\n' || c = '\r' || c = '\x0b' || c = '\x0c'

/-- Characters matched by the regex class `\d`. -/
def isDigitChar (c : Char) : Bool :=
  '0' ≤ c && c ≤ '9'

/-- Word characters for the regex `\b` assertion: ASCII alphanumerics,
underscore and the Cyrillic letters. -/
def isWordChar (c : Char) : Bool :=
  isDigitChar c || ('a' ≤ c && c ≤ 'z') || ('A' ≤ c && c ≤ 'Z') || c = '_'
    || ('А' ≤ c && c ≤ 'я') || c = 'ё' || c = 'Ё'

/-- Lower-casing of one character, the fragment of Python `str.lower`
relevant here: ASCII letters and the Cyrillic block. -/
def lowerChar (c : Char) : Char :=
  if 'A' ≤ c && c ≤ 'Z' then Char.ofNat (c.toNat + 32)
  else if 'А' ≤ c && c ≤ 'Я' then Char.ofNat (c.toNat + 32)
  else if c = 'Ё' then 'ё'
  else c

/-- Python `str.lower` on the fragment used by the code. -/
def lowerStr (s : List Char) : List Char :=
  s.map lowerChar

/-- Does `pat` occur at the head of `s`? (helper for substring search). -/
def startsWithLC : List Char → List Char → Bool
  | [], _ => true
  | _ :: _, [] => false
  | a :: as, b :: bs => a == b && startsWithLC as bs

/-- Python's substring test `needle in haystack`. -/
def occursIn (needle : List Char) : List Char → Bool
  | [] => startsWithLC needle []
  | c :: rest => startsWithLC needle (c :: rest) || occursIn needle rest

/-- Numeric value of a digit string (digits already checked). -/
def digitsToNat (l : List Char) : Nat :=
  l.foldl (fun n c => n * 10 + (c.toNat - 48)) 0

/-- Are all characters decimal digits? -/
def allDigits (l : List Char) : Bool :=
  l.all isDigitChar

/-- Python `float()` restricted to the decimal literals reachable in this
code (digits with at most one point); any other shape raises `ValueError`
in Python, which the callers catch, so it is `none` here. -/
def parseDec (l : List Char) : Option ℚ :=
  match l.splitOn '.' with
  | [ip] =>
    if ip ≠ [] && allDigits ip then some (digitsToNat ip : ℚ) else none
  | [ip, fp] =>
    if (ip ≠ [] || fp ≠ []) && allDigits ip && allDigits fp then
      some ((digitsToNat ip : ℚ) + (digitsToNat fp : ℚ) / (10 ^ fp.length))
    else none
  | _ => none

/-- Python `str.replace(',', '.')`. -/
def replaceCommaDot (l : List Char) : List Char :=
  l.map (fun c => if c = ',' then '.' else c)

/-- Python `str.replace(' ', '')`. -/
def removeSpaces (l : List Char) : List Char :=
  l.filter (fun c => c ≠ ' ')

/-! ### A small regex interpreter

Only the constructs appearing in the source's patterns are represented:
literals, character classes, greedy `*`/`+` over classes, optional groups,
alternation, one capturing group and the `\b` assertion. -/

/-- Abstract syntax of the regular expressions used by the source. -/
inductive RE where
  | eps : RE
  | lit : List Char → RE
  | cls : (Char → Bool) → RE
  | clsStar : (Char → Bool) → RE
  | clsPlus : (Char → Bool) → RE
  | seq : RE → RE → RE
  | alt : RE → RE → RE
  | opt : RE → RE
  | grp : RE → RE
  | wb : RE

/-- Character as seen by a (possibly case-insensitive) match. -/
def ciChar (ci : Bool) (c : Char) : Char :=
  if ci then lowerChar c else c

/-- Is the head of `o` a word character (for `\\b`)? -/
def wordOpt (o : Option Char) : Bool :=
  match o with
  | none => false
  | some c => isWordChar c

/-- Does `pat` match (possibly case-insensitively) at the head of `s`? -/
def ciStarts (ci : Bool) : List Char → List Char → Bool
  | [], _ => true
  | _ :: _, [] => false
  | a :: as, b :: bs => (ciChar ci b == a) && ciStarts ci as bs

/-- Length of the run of class characters at position `pos`. -/
def runLen (ci : Bool) (p : Char → Bool) (msg : List Char) (pos : Nat) : Nat :=
  ((msg.drop pos).takeWhile (fun c => p (ciChar ci c))).length

/-- The `\\b` assertion at a position of the message: exactly one of the
neighbouring characters is a word character. -/
def atWordBoundary (msg : List Char) (pos : Nat) : Bool :=
  (if pos = 0 then false else wordOpt ((msg.drop (pos - 1)).head?))
    != wordOpt ((msg.drop pos).head?)

/-- Frames of the backtracking machine: a regex still to be matched, a
quantifier with the repetition count to try next and its lower bound, and
the capture-group delimiters. -/
inductive Frame where
  | fre : RE → Frame
  | fstar : (Char → Bool) → Nat → Nat → Frame
  | gopen : Frame
  | gclose : Frame

/-- One pending alternative of the backtracking machine: the frame stack,
the input position, the group-start position and the captured group
span. -/
structure Cfg where
  stack : List Frame
  pos : Nat
  gs : Nat
  gc : Option (Nat × Nat)

/-- One step of the backtracking machine, parameterized by the
continuation `ih` used for the (fuel-decremented) recursive calls.  The
alternatives list is explored depth-first, which reproduces Python's
leftmost/greedy semantics: alternations push the right branch behind the
fully-expanded left branch, quantifiers try the longest repetition first,
and the first configuration to empty its stack wins. -/
def vmBody (ci : Bool) (msg : List Char)
    (ih : List Cfg → Option (Nat × Option (Nat × Nat))) :
    List Cfg → Option (Nat × Option (Nat × Nat))
  | [] => none
  | c :: alts =>
    match c.stack with
    | [] => some (c.pos, c.gc)
    | f :: rest =>
      match f with
      | .fre .eps => ih ({ c with stack := rest } :: alts)
      | .fre (.lit cs) =>
        if ciStarts ci cs (msg.drop c.pos) then
          ih ({ c with stack := rest, pos := c.pos + cs.length } :: alts)
        else ih alts
      | .fre (.cls p) =>
        match (msg.drop c.pos).head? with
        | some ch =>
          if p (ciChar ci ch) then
            ih ({ c with stack := rest, pos := c.pos + 1 } :: alts)
          else ih alts
        | none => ih alts
      | .fre (.clsStar p) =>
        ih ({ c with stack := .fstar p (runLen ci p msg c.pos) 0 :: rest } :: alts)
      | .fre (.clsPlus p) =>
        let n := runLen ci p msg c.pos
        if n = 0 then ih alts
        else ih ({ c with stack := .fstar p n 1 :: rest } :: alts)
      | .fre (.seq a b) =>
        ih ({ c with stack := .fre a :: .fre b :: rest } :: alts)
      | .fre (.alt a b) =>
        ih ({ c with stack := .fre a :: rest } :: { c with stack := .fre b :: rest } :: alts)
      | .fre (.opt a) =>
        ih ({ c with stack := .fre a :: rest } :: { c with stack := rest } :: alts)
      | .fre (.grp a) =>
        ih ({ c with stack := .gopen :: .fre a :: .gclose :: rest } :: alts)
      | .fre .wb =>
        if atWordBoundary msg c.pos then ih ({ c with stack := rest } :: alts)
        else ih alts
      | .fstar p n lo =>
        if n ≤ lo then
          ih ({ c with stack := rest, pos := c.pos + n } :: alts)
        else
          ih ({ c with stack := rest, pos := c.pos + n } ::
            { c with stack := .fstar p (n - 1) lo :: rest } :: alts)
      | .gopen => ih ({ c with stack := rest, gs := c.pos } :: alts)
      | .gclose => ih ({ c with stack := rest, gc := some (c.gs, c.pos) } :: alts)

/-- The backtracking machine: iterate `vmBody` on a fuel bound on the
number of backtracking steps (written with a bare `Nat.rec` so that
evaluation unfolds iteratively). -/
def vmStep (ci : Bool) (msg : List Char) (fuel : Nat) :
    List Cfg → Option (Nat × Option (Nat × Nat)) :=
  Nat.rec (motive := fun _ => List Cfg → Option (Nat × Option (Nat × Nat)))
    (fun _ => none) (fun _ ih => vmBody ci msg ih) fuel

/-- Fuel bound for the machine: far beyond any backtracking the source's
patterns can perform on a message. -/
def vmFuel : Nat := 1000000

/-- Try to match `re` anchored at position `pos`: the end position and the
captured group span of the first (leftmost/greedy) match. -/
def matchAt (ci : Bool) (re : RE) (msg : List Char) (pos : Nat) :
    Option (Nat × Option (Nat × Nat)) :=
  vmStep ci msg vmFuel [{ stack := [.fre re], pos := pos, gs := 0, gc := none }]

/-- Scan of `re.search`: try each start position left to right (again a
bare `Nat.rec` over the number of remaining start positions). -/
def searchFrom (ci : Bool) (re : RE) (msg : List Char) (f : Nat) :
    Nat → Option (Nat × Nat × Option (List Char)) :=
  Nat.rec (motive := fun _ => Nat → Option (Nat × Nat × Option (List Char)))
    (fun _ => none)
    (fun _ ih pos =>
      match matchAt ci re msg pos with
      | some (en, gc) =>
        some (pos, en, gc.map (fun se => (msg.drop se.1).take (se.2 - se.1)))
      | none => ih (pos + 1)) f

/-- Python `re.search`: `(start, end, group1)` of the first match. -/
def searchRE (ci : Bool) (re : RE) (msg : List Char) :
    Option (Nat × Nat × Option (List Char)) :=
  searchFrom ci re msg (msg.length + 1) 0

/-- Accumulating loop of `re.finditer` (bumping by one position on an
empty match, as Python's scanner does). -/
def finditerGo (ci : Bool) (re : RE) (msg : List Char) (fuel : Nat) :
    Nat → List (Nat × Nat × Option (List Char)) →
      List (Nat × Nat × Option (List Char)) :=
  Nat.rec (motive := fun _ => Nat → List (Nat × Nat × Option (List Char)) →
      List (Nat × Nat × Option (List Char)))
    (fun _ acc => acc.reverse)
    (fun _ ih pos acc =>
      match searchFrom ci re msg (msg.length + 1 - pos) pos with
      | none => acc.reverse
      | some (st, en, g) =>
        ih (if en ≤ st then en + 1 else en) ((st, en, g) :: acc)) fuel

/-- Python `re.finditer`: all non-overlapping matches as
`(start, end, group1)` triples. -/
def finditerRE (ci : Bool) (re : RE) (msg : List Char) :
    List (Nat × Nat × Option (List Char)) :=
  finditerGo ci re msg (msg.length + 1) 0 []

/-- Substring of `msg` between positions `st` and `en` (`msg[st:en]`). -/
def sliceLC (msg : List Char) (st en : Nat) : List Char :=
  (msg.drop st).take (en - st)

/-- Chain several regexes in sequence. -/
def rseq (l : List RE) : RE :=
  l.foldr RE.seq RE.eps

/-- Alternation over a non-empty list of regexes, tried left to right. -/
def ralts (l : List RE) : RE :=
  match l with
  | [] => RE.eps
  | x :: xs => xs.foldl RE.alt x

/-- Literal regex from a string. -/
def rlit (s : String) : RE :=
  RE.lit s.data

/-- Regex `\s*`. -/
def rsp : RE := RE.clsStar isSpaceChar

/-- Regex `\s+`. -/
def rsp1 : RE := RE.clsPlus isSpaceChar

/-! ### `SpendingAnalyticsService._extract_percent` -/

/-- Capturing group `(\d+(?:[.,]\d+)?)` shared by all percent patterns. -/
def decimalGroup : RE :=
  RE.grp (rseq [RE.clsPlus isDigitChar,
    RE.opt (rseq [RE.cls (fun c => c = '.' || c = ','), RE.clsPlus isDigitChar])])

/-- Pattern `stem[итьи]*\s+[на]*\s*(\d+(?:[.,]\d+)?)\s*%` for the four
reduction verbs. -/
def cutVerbPat (stem : String) : RE :=
  rseq [rlit stem, RE.clsStar (fun c => c = 'и' || c = 'т' || c = 'ь'),
    rsp1, RE.clsStar (fun c => c = 'н' || c = 'а'), rsp, decimalGroup, rsp, rlit "%"]

/-- The ordered pattern list of `_extract_percent`. -/
def percentPatterns : List RE :=
  [cutVerbPat "сократ",
   cutVerbPat "уменьш",
   cutVerbPat "сниз",
   cutVerbPat "эконом",
   rseq [decimalGroup, rsp, rlit "%", rsp,
     ralts [rlit "сократ", rlit "уменьш", rlit "сниз", rlit "эконом"]],
   rseq [rlit "на", rsp, decimalGroup, rsp, rlit "%"],
   rseq [decimalGroup, rsp, rlit "%", RE.wb]]

/-- Per-pattern step of `_extract_percent`: first match of the pattern, its
group parsed as a float, kept only when strictly inside `(0, 100)`. -/
def percentStep (msg : List Char) (p : RE) : Option ℚ :=
  match searchRE false p msg with
  | none => none
  | some (_, _, g) =>
    match g with
    | none => none
    | some cap =>
      match parseDec (replaceCommaDot cap) with
      | none => none
      | some v => if 0 < v ∧ v < 100 then some v else none

/-- `SpendingAnalyticsService._extract_percent`: try the patterns in order,
return the first in-range value. -/
def extract_percent (msg : List Char) : Option ℚ :=
  percentPatterns.findSome? (percentStep msg)

/-! ### `_simple_transaction_extraction` and its helpers
(`backend/gigachat_integration.py`) -/

/-- Capturing group `(\d+[\s,.]?\d*)` shared by all amount patterns. -/
def amountGroup : RE :=
  RE.grp (rseq [RE.clsPlus isDigitChar,
    RE.opt (RE.cls (fun c => isSpaceChar c || c = ',' || c = '.')),
    RE.clsStar isDigitChar])

/-- An amount pattern: the number group, optional spaces, a unit. -/
def unitPat (u : RE) : RE :=
  rseq [amountGroup, rsp, u]

/-- The ordered `amount_patterns` list (matched with `re.IGNORECASE`). -/
def amountPatterns : List RE :=
  [unitPat (ralts [rseq [rlit "рубл", RE.cls (fun c => c = 'е' || c = 'й' || c = 'я')],
     rlit "rub", rlit "₽", rlit "р.", rlit "руб"]),
   unitPat (ralts [rlit "тысяч", rlit "тыс", rlit "к", rlit "k"]),
   unitPat (ralts [rlit "миллион", rlit "млн", rlit "m"]),
   unitPat (ralts [rlit "доллар", rlit "usd", rlit "$", rlit "бакс"]),
   unitPat (ralts [rlit "евро", rlit "eur", rlit "€"])]

/-- The bare-number pattern `\d+[\s,.]?\d*` used when no unit pattern hits. -/
def bareNumberPat : RE :=
  rseq [RE.clsPlus isDigitChar,
    RE.opt (RE.cls (fun c => isSpaceChar c || c = ',' || c = '.')),
    RE.clsStar isDigitChar]

/-- The multiplier decision of `_simple_transaction_extraction`, applied to
the lower-cased full match `match.group(0)`: `×1000` when it contains
`тысяч`, `тыс` or the Cyrillic letter `к`; else `×1000000` when it contains
`миллион`, `млн` or the Latin letter `m`; else `×1`.  (The Latin `k`
alternative of the thousand pattern is absent from the test.) -/
def unitMultiplier (g0lower : List Char) : ℚ :=
  if occursIn "тысяч".data g0lower || occursIn "тыс".data g0lower
      || occursIn "к".data g0lower then 1000
  else if occursIn "миллион".data g0lower || occursIn "млн".data g0lower
      || occursIn "m".data g0lower then 1000000
  else 1

/-- Context window `message[max(0, start-50) : min(len, end+50)]` (the list
operations clamp automatically). -/
def contextAt (msg : List Char) (st en : Nat) : List Char :=
  (msg.drop (st - 50)).take (en + 50 - (st - 50))

/-- Amounts found by the five unit patterns, in pattern order then match
order; a numeric parse failure or a non-positive result drops just that
occurrence. -/
def unitAmounts (msg : List Char) : List (ℚ × List Char) :=
  (amountPatterns.map (fun pat =>
    (finditerRE true pat msg).filterMap (fun m =>
      let ctx := contextAt msg m.1 m.2.1
      let amount_str := m.2.2.getD (sliceLC msg m.1 m.2.1)
      match parseDec (removeSpaces (replaceCommaDot amount_str)) with
      | none => none
      | some a =>
        let a2 := a * unitMultiplier (lowerStr (sliceLC msg m.1 m.2.1))
        if 0 < a2 then some (a2, ctx) else none))).flatten

/-- Amounts found by the bare-number pattern (fallback when no unit
pattern matched anything). -/
def bareAmounts (msg : List Char) : List (ℚ × List Char) :=
  (finditerRE false bareNumberPat msg).filterMap (fun m =>
    let ctx := contextAt msg m.1 m.2.1
    match parseDec (removeSpaces (replaceCommaDot (sliceLC msg m.1 m.2.1))) with
    | none => none
    | some a => if 0 < a then some (a, ctx) else none)

/-- `amounts_with_context`: unit-pattern amounts, falling back to bare
numbers only when the former list is empty. -/
def amountsWithContext (msg : List Char) : List (ℚ × List Char) :=
  let u := unitAmounts msg
  if u.isEmpty then bareAmounts msg else u

/-- The `income_keywords` list. -/
def incomeKeywords : List String :=
  ["получил", "заработал", "доход", "зарплата", "зарплату", "получила",
   "заработала", "прибыль", "отправила", "отправил", "подарок", "подарил"]

/-- The `expense_keywords` list. -/
def expenseKeywords : List String :=
  ["потратил", "купил", "заплатил", "расход", "трата", "потратила",
   "купила", "заплатила"]

/-- Python's `any(keyword in text for keyword in keywords)`. -/
def kwAny (kws : List String) (t : List Char) : Bool :=
  kws.any (fun w => occursIn w.data t)

/-- `_determine_transaction_type`: income only when an income keyword is
present and no expense keyword is; an expense keyword forces expense; the
default is expense. -/
def determine_transaction_type (ctx : List Char) : List Char :=
  let tl := lowerStr ctx
  let has_income := kwAny incomeKeywords tl
  let has_expense := kwAny expenseKeywords tl
  if has_income && !has_expense then "income".data
  else if has_expense then "expense".data
  else "expense".data

/-- The ordered `category_keywords` table (Python dict insertion order). -/
def categoryKeywords : List (String × List String) :=
  [("Food", ["еда", "продукты", "хлеб", "молоко", "ресторан", "кафе", "обед", "ужин", "завтрак"]),
   ("Transport", ["транспорт", "машина", "бензин", "такси", "метро", "автобус", "проезд"]),
   ("Entertainment", ["кино", "игры", "развлечения", "отдых", "отпуск", "концерт"]),
   ("Health", ["здоровье", "лечение", "врач", "лекарства", "медицина", "аптека", "больница"]),
   ("Shopping", ["покупка", "магазин", "одежда", "обувь", "техника"]),
   ("Housing", ["жилье", "аренда", "коммунальные", "ремонт", "квартира"]),
   ("Work", ["работа", "зарплата", "заработок", "проект", "фриланс"]),
   ("Bills", ["счет", "счета", "оплата", "коммуналка", "интернет", "телефон"])]

/-- First-match-wins category detection over the keyword table; `Other`
when nothing hits. -/
def detectCategoryIn (tl : List Char) : List Char :=
  match categoryKeywords.find? (fun cw => kwAny cw.2 tl) with
  | some cw => cw.1.data
  | none => "Other".data

/-- Python `str.split()` (split on whitespace runs, no empty pieces). -/
def splitWsGo : List Char → List Char → List (List Char)
  | [], acc => if acc.isEmpty then [] else [acc.reverse]
  | c :: rest, acc =>
    if isSpaceChar c then
      if acc.isEmpty then splitWsGo rest [] else acc.reverse :: splitWsGo rest []
    else splitWsGo rest (c :: acc)

/-- Python `str.split()`. -/
def splitWs (s : List Char) : List (List Char) :=
  splitWsGo s []

/-- Upper-casing of one character (inverse of `lowerChar` on letters). -/
def upperChar (c : Char) : Char :=
  if 'a' ≤ c && c ≤ 'z' then Char.ofNat (c.toNat - 32)
  else if 'а' ≤ c && c ≤ 'я' then Char.ofNat (c.toNat - 32)
  else if c = 'ё' then 'Ё'
  else c

/-- Python `str.capitalize()`. -/
def capitalizeLC : List Char → List Char
  | [] => []
  | c :: rest => upperChar c :: lowerStr rest

/-- The `income_words` of `_extract_title_from_message`. -/
def incomeTitleWords : List String :=
  ["зарплата", "доход", "прибыль", "заработок"]

/-- The `expense_words` of `_extract_title_from_message`. -/
def expenseTitleWords : List String :=
  ["купил", "потратил", "заплатил", "расход"]

/-- Expense branch of the title scan: at the first keyword hit, return the
following word capitalized; a hit on the last word (or no hit) falls
through to the default. -/
def expenseTitleGo : List (List Char) → Option (List Char)
  | [] => none
  | w :: rest =>
    if kwAny expenseTitleWords (lowerStr w) then
      match rest with
      | [] => none
      | nxt :: _ => some (capitalizeLC nxt)
    else expenseTitleGo rest

/-- `_extract_title_from_message`. -/
def extract_title_from_message (msg : List Char) (ttype : List Char) : List Char :=
  let words := splitWs msg
  if ttype = "income".data then
    match words.find? (fun w => kwAny incomeTitleWords (lowerStr w)) with
    | some w => capitalizeLC w
    | none => "Доход".data
  else
    match expenseTitleGo words with
    | some t => t
    | none => "Расход".data

/-- A transaction as produced by `_simple_transaction_extraction` (the
`date` field is the injected `today`; `description` is `context[:100]`). -/
structure STxn where
  ttype : List Char
  title : List Char
  amount : Option ℚ
  category : List Char
  date : Int
  descr : List Char
  confidence : ℚ
deriving DecidableEq, Repr

/-- `_simple_transaction_extraction`: one transaction per extracted amount
(capped at five) or a single low-confidence placeholder when no amount was
found anywhere. -/
def simple_transaction_extraction (today : Int) (msg : List Char) : List STxn :=
  let text_lower := lowerStr msg
  let aw := amountsWithContext msg
  if aw.isEmpty then
    let default_type :=
      if kwAny incomeKeywords text_lower then "income".data else "expense".data
    [{ ttype := default_type,
       title := extract_title_from_message msg default_type,
       amount := none,
       category := detectCategoryIn text_lower,
       date := today,
       descr := msg.take 100,
       confidence := 3 / 10 }]
  else
    (aw.take 5).map (fun ac =>
      let trans_type := determine_transaction_type ac.2
      { ttype := trans_type,
        title := extract_title_from_message ac.2 trans_type,
        amount := some ac.1,
        category := detectCategoryIn (lowerStr ac.2),
        date := today,
        descr := ac.2.take 100,
        confidence := 3 / 5 })

/-! ### Dates (`datetime.strptime("%Y-%m-%d")` / `datetime.fromisoformat`)

A calendar date is encoded as its civil day number. -/

/-- Gregorian leap-year rule. -/
def isLeapYear (y : Int) : Bool :=
  y % 4 = 0 && (y % 100 ≠ 0 || y % 400 = 0)

/-- Length of a month. -/
def daysInMonth (y m : Int) : Int :=
  if m = 2 then (if isLeapYear y then 29 else 28)
  else if m = 4 || m = 6 || m = 9 || m = 11 then 30
  else 31

/-- Civil day number of a Gregorian date (days since 1970-01-01, the
standard era-based conversion). -/
def civilToDays (y m d : Int) : Int :=
  let y1 := if m ≤ 2 then y - 1 else y
  let era := (if 0 ≤ y1 then y1 else y1 - 399) / 400
  let yoe := y1 - era * 400
  let mp := (m + 9) % 12
  let doy := (153 * mp + 2) / 5 + d - 1
  let doe := yoe * 365 + yoe / 4 - yoe / 100 + doy
  era * 146097 + doe - 719468

/-- `datetime.strptime(s, "%Y-%m-%d")`: four-digit year, one/two-digit
month and day, value-checked; the full string must be consumed. -/
def parseYMD (s : List Char) : Option Int :=
  match s.splitOn '-' with
  | [ys, ms, ds] =>
    if ys.length = 4 && allDigits ys
        && 1 ≤ ms.length && ms.length ≤ 2 && allDigits ms
        && 1 ≤ ds.length && ds.length ≤ 2 && allDigits ds then
      let y : Int := digitsToNat ys
      let m : Int := digitsToNat ms
      let d : Int := digitsToNat ds
      if 1 ≤ y ∧ 1 ≤ m ∧ m ≤ 12 ∧ 1 ≤ d ∧ d ≤ daysInMonth y m then
        some (civilToDays y m d)
      else none
    else none
  | _ => none

/-- Strict `YYYY-MM-DD` (zero-padded), as `fromisoformat` requires. -/
def parseYMDStrict (s : List Char) : Option Int :=
  match s.splitOn '-' with
  | [ys, ms, ds] =>
    if ys.length = 4 && allDigits ys && ms.length = 2 && allDigits ms
        && ds.length = 2 && allDigits ds then
      let y : Int := digitsToNat ys
      let m : Int := digitsToNat ms
      let d : Int := digitsToNat ds
      if 1 ≤ y ∧ 1 ≤ m ∧ m ≤ 12 ∧ 1 ≤ d ∧ d ≤ daysInMonth y m then
        some (civilToDays y m d)
      else none
    else none
  | _ => none

/-- Two digits whose value is at most `mx`. -/
def twoDigLE (l : List Char) (mx : Nat) : Bool :=
  l.length = 2 && allDigits l && digitsToNat l ≤ mx

/-- Seconds with an optional 3- or 6-digit fraction. -/
def validSecFrac (l : List Char) : Bool :=
  match l.splitOn '.' with
  | [ss] => twoDigLE ss 59
  | [ss, fr] => twoDigLE ss 59 && allDigits fr && (fr.length = 3 || fr.length = 6)
  | _ => false

/-- The `HH[:MM[:SS[.fff[fff]]]]` time forms accepted by `fromisoformat`. -/
def validTimeCore (t : List Char) : Bool :=
  match t.splitOn ':' with
  | [hh] => twoDigLE hh 23
  | [hh, mm] => twoDigLE hh 23 && twoDigLE mm 59
  | [hh, mm, sf] => twoDigLE hh 23 && twoDigLE mm 59 && validSecFrac sf
  | _ => false

/-- Timezone offset `±HH:MM[:SS[.ffffff]]` body (after the sign). -/
def validTzBody (t : List Char) : Bool :=
  match t.splitOn ':' with
  | [hh, mm] => twoDigLE hh 23 && twoDigLE mm 59
  | [hh, mm, sf] => twoDigLE hh 23 && twoDigLE mm 59 && validSecFrac sf
  | _ => false

/-- Index of the first occurrence of `c`. -/
def idxOfChar (c : Char) : List Char → Option Nat
  | [] => none
  | d :: rest =>
    if d = c then some 0
    else
      match idxOfChar c rest with
      | none => none
      | some i => some (i + 1)

/-- Split a time string at its timezone sign (`-` looked up first, then
`+`, as CPython does). -/
def splitTz (t : List Char) : List Char × Option (List Char) :=
  match idxOfChar '-' t with
  | some i => (t.take i, some (t.drop (i + 1)))
  | none =>
    match idxOfChar '+' t with
    | some i => (t.take i, some (t.drop (i + 1)))
    | none => (t, none)

/-- Validity of the time part of an ISO timestamp. -/
def validIsoTime (t : List Char) : Bool :=
  match splitTz t with
  | (core, none) => validTimeCore core
  | (core, some tz) => validTimeCore core && validTzBody tz

/-- `datetime.fromisoformat` after the source's `.replace("Z", "+00:00")`:
strict ten-character date, arbitrary separator character, validated time
part; only the date part matters downstream (`dt.date()`). -/
def parseIso (s : List Char) : Option Int :=
  let s1 := s.foldr (fun c acc =>
    if c = 'Z' then '+' :: '0' :: '0' :: ':' :: '0' :: '0' :: acc else c :: acc) []
  match parseYMDStrict (s1.take 10) with
  | none => none
  | some d =>
    if s1.length = 10 then some d
    else if s1.length = 11 then none
    else if validIsoTime (s1.drop 11) then some d else none

/-! ### `SpendingAnalyticsService` -/

/-- Raw transaction record as supplied by the caller (absent JSON fields
are `none`). -/
structure RawTxn where
  date : Option (List Char)
  amount : Option ℚ
  rtype : Option (List Char)
  category : Option (List Char)
  title : Option (List Char)
deriving DecidableEq

/-- Parsed transaction (`_Txn` of the service; only the calendar date of
the datetime is ever used). -/
structure Txn where
  date : Int
  amount : ℚ
  category : List Char
  title : List Char
  ttype : List Char
deriving DecidableEq, Repr

/-- The literal `"expense"`. -/
def expenseT : List Char := "expense".data

/-- The literal `"income"`. -/
def incomeT : List Char := "income".data

/-- Date-field dispatch of `_parse_transactions`: empty string is dropped,
a string containing `T` goes through `fromisoformat`, anything else through
`strptime` on its first ten characters. -/
def parseDateRaw (s : List Char) : Option Int :=
  if s.isEmpty then none
  else if occursIn ['T'] s then parseIso s
  else parseYMD (s.take 10)

/-- Per-record body of `_parse_transactions`: unparsable date or a type
other than `expense`/`income` (case-insensitively) drops the record; a
missing amount is coerced to 0; missing/empty category defaults to
`Other`. -/
def parse_record (r : RawTxn) : Option Txn :=
  let date_raw := r.date.getD []
  match parseDateRaw date_raw with
  | none => none
  | some d =>
    let amount := r.amount.getD 0
    let txn_type := lowerStr (r.rtype.getD [])
    if txn_type = expenseT ∨ txn_type = incomeT then
      some { date := d, amount := amount,
             category :=
               match r.category with
               | none => "Other".data
               | some c => if c.isEmpty then "Other".data else c,
             title := r.title.getD [],
             ttype := txn_type }
    else none

/-- `_parse_transactions`. -/
def parse_transactions (rs : List RawTxn) : List Txn :=
  rs.filterMap parse_record

/-- Membership of a closed date window. -/
def txnInWindow (a b : Int) (t : Txn) : Bool :=
  decide (a ≤ t.date) && decide (t.date ≤ b)

/-- One dict update `out[cat] = out.get(cat, 0.0) + amount` on an
insertion-ordered association list. -/
def catAdd (acc : List (List Char × ℚ)) (cat : List Char) (amt : ℚ) :
    List (List Char × ℚ) :=
  match acc with
  | [] => [(cat, amt)]
  | (c, v) :: rest =>
    if c = cat then (c, v + amt) :: rest else (c, v) :: catAdd rest cat amt

/-- `_sum_by_category` (Python dict = insertion-ordered association
list). -/
def sum_by_category (l : List Txn) : List (List Char × ℚ) :=
  l.foldl (fun acc t => catAdd acc t.category t.amount) []

/-- Stable insertion step for a descending sort: the new (earlier) element
goes before every later element whose key is not strictly greater. -/
def insertDescBy (key : α → ℚ) (x : α) : List α → List α
  | [] => [x]
  | y :: ys => if key x < key y then y :: insertDescBy key x ys else x :: y :: ys

/-- Python `sorted(·, key=·, reverse=True)`: descending, stable. -/
def sortDescBy (key : α → ℚ) : List α → List α
  | [] => []
  | x :: xs => insertDescBy key x (sortDescBy key xs)

/-- Numeric content of `_build_savings_plan` (the source renders these
numbers into a text block): each cut entry is
`(category, amount, amount * percent/100)`. -/
structure PlanData where
  target : ℚ
  savings : ℚ
  cuts : List (List Char × ℚ × ℚ)
deriving DecidableEq

/-- `_build_savings_plan`, numeric content. -/
def build_savings_plan (percent total_exp : ℚ)
    (top_cats : List (List Char × ℚ)) : PlanData :=
  let target := total_exp * (1 - percent / 100)
  { target := target,
    savings := total_exp - target,
    cuts := (top_cats.take 3).map (fun na => (na.1, na.2, na.2 * (percent / 100))) }

/-- Sum of transaction amounts. -/
def sumAmounts (l : List Txn) : ℚ :=
  (l.map Txn.amount).sum

/-- The numeric/structured content of `try_answer` (lines 28-94 of the
service), with the ambient clock and the message-derived `days`/`percent`
as explicit parameters. -/
structure Report where
  startD : Int
  endD : Int
  curExp : List Txn
  curInc : List Txn
  totalExp : ℚ
  totalInc : ℚ
  byCat : List (List Char × ℚ)
  topCats : List (List Char × ℚ)
  biggest : List Txn
  prevTxns : List Txn
  prevTotal : ℚ
  deltaPct : Option ℚ
  savingsPlan : Option PlanData
deriving DecidableEq

/-- Core computation of `try_answer`. -/
def try_answer_report (today : Int) (days : Nat) (percent : Option ℚ)
    (records : List RawTxn) : Report :=
  let txns := parse_transactions records
  let start := today - ((days : Int) - 1)
  let cur := txns.filter (txnInWindow start today)
  let cur_exp := cur.filter (fun t => decide (t.ttype = expenseT) && decide (0 < t.amount))
  let cur_income := cur.filter (fun t => decide (t.ttype = incomeT) && decide (0 < t.amount))
  let total_exp := sumAmounts cur_exp
  let total_inc := sumAmounts cur_income
  let by_cat := sum_by_category cur_exp
  let top_cats := (sortDescBy Prod.snd by_cat).take 5
  let biggest := (sortDescBy Txn.amount cur_exp).take 5
  let prev := txns.filter (fun t =>
    txnInWindow (start - (days : Int)) (start - 1) t
      && decide (t.ttype = expenseT) && decide (0 < t.amount))
  let prev_total := sumAmounts prev
  let delta_pct :=
    if 0 < prev_total then some ((total_exp - prev_total) / prev_total * 100) else none
  let plan :=
    match percent with
    | some p => if 0 < total_exp then some (build_savings_plan p total_exp top_cats) else none
    | none => none
  { startD := start, endD := today, curExp := cur_exp, curInc := cur_income,
    totalExp := total_exp, totalInc := total_inc, byCat := by_cat,
    topCats := top_cats, biggest := biggest, prevTxns := prev,
    prevTotal := prev_total, deltaPct := delta_pct, savingsPlan := plan }

/-! ### `AIService.analyze_emotions` / `AIService.analyze_friendliness` -/

/-- Anger keywords of the emotion heuristic. -/
def angerKw : List String :=
  ["блять", "сука", "пиздец", "хуйня", "злой", "злюсь", "бесит"]

/-- Joy keywords of the emotion heuristic. -/
def joyKw : List String :=
  ["спасибо", "благодарю", "отлично", "хорошо", "рад"]

/-- Sadness keywords of the emotion heuristic. -/
def sadKw : List String :=
  ["грустно", "печально", "плохо", "проблема"]

/-- Keyword-heuristic fallback of `analyze_emotions` (dict in insertion
order `joy, fear, anger, sadness, surprise, neutral`). -/
def analyze_emotions_fallback (text : List Char) : List (List Char × ℚ) :=
  let tl := lowerStr text
  if kwAny angerKw tl then
    [("joy".data, 0), ("fear".data, 0), ("anger".data, 3/5),
     ("sadness".data, 0), ("surprise".data, 0), ("neutral".data, 2/5)]
  else if kwAny joyKw tl then
    [("joy".data, 3/5), ("fear".data, 0), ("anger".data, 0),
     ("sadness".data, 0), ("surprise".data, 0), ("neutral".data, 2/5)]
  else if kwAny sadKw tl then
    [("joy".data, 0), ("fear".data, 0), ("anger".data, 0),
     ("sadness".data, 1/2), ("surprise".data, 0), ("neutral".data, 1/2)]
  else
    [("joy".data, 0), ("fear".data, 0), ("anger".data, 0),
     ("sadness".data, 0), ("surprise".data, 0), ("neutral".data, 1/2)]

/-- Sum of the values of an emotion vector. -/
def sumVals (em : List (List Char × ℚ)) : ℚ :=
  (em.map Prod.snd).sum

/-- Normalization applied to the external-AI emotion dict:
`total = sum(values) if emotions else 1.0`, division only when
`total > 0`. -/
def normalize_emotions (em : List (List Char × ℚ)) : List (List Char × ℚ) :=
  let total := if em.isEmpty then 1 else sumVals em
  if 0 < total then em.map (fun kv => (kv.1, kv.2 / total)) else em

/-- The fixed `emotion_weights` table. -/
def emotionWeights : List (List Char × ℚ) :=
  [("joy".data, 2/5), ("surprise".data, 1/10), ("neutral".data, 0),
   ("sadness".data, -(1/5)), ("fear".data, -(3/20)), ("anger".data, -(1/2))]

/-- Dict lookup `emotions.get(emotion, 0.0)`. -/
def lookupVal (em : List (List Char × ℚ)) (k : List Char) : ℚ :=
  match em.find? (fun kv => kv.1 == k) with
  | some kv => kv.2
  | none => 0

/-- The weighted `emotion_offset` accumulation. -/
def emotion_offset (em : List (List Char × ℚ)) : ℚ :=
  (emotionWeights.map (fun ew => lookupVal em ew.1 * ew.2)).sum

/-- `max(0.0, min(1.0, x))`. -/
def clamp01 (x : ℚ) : ℚ :=
  max 0 (min 1 x)

/-- Final score step shared by both paths of `analyze_friendliness`:
base score plus emotion offset, clamped to `[0, 1]`. -/
def friendliness_final (base : ℚ) (em : List (List Char × ℚ)) : ℚ :=
  clamp01 (base + emotion_offset em)

/-- The `negative_words` of the friendliness fallback. -/
def negativeWords : List String :=
  ["блять", "сука", "пиздец", "хуйня", "ебанутый", "говно", "идиот", "тупой"]

/-- The `positive_words` of the friendliness fallback. -/
def positiveWords : List String :=
  ["спасибо", "пожалуйста", "благодарю", "отлично", "хорошо", "помогите"]

/-- Result record of `analyze_friendliness` (fields of the returned
dict that carry numeric content). -/
structure FriendRes where
  score : ℚ
  sentiment : List Char
  base : ℚ
  offset : ℚ
  emotions : List (List Char × ℚ)
deriving DecidableEq

/-- Keyword-heuristic fallback path of `analyze_friendliness`. -/
def analyze_friendliness_fallback (text : List Char) : FriendRes :=
  let tl := lowerStr text
  let negCount : ℚ := ((negativeWords.filter (fun w => occursIn w.data tl)).length : ℚ)
  let posCount : ℚ := ((positiveWords.filter (fun w => occursIn w.data tl)).length : ℚ)
  let bs :=
    if posCount < negCount then (max 0 (1/2 - negCount * (3/20)), "negative".data)
    else if negCount < posCount then (min 1 (1/2 + posCount * (3/20)), "positive".data)
    else ((1/2 : ℚ), "neutral".data)
  let em :=
    if 0 < negCount then
      let anger := min 1 (negCount * (3/10))
      [("joy".data, 0), ("fear".data, 0), ("anger".data, anger),
       ("sadness".data, 0), ("surprise".data, 0), ("neutral".data, 1 - anger)]
    else if 0 < posCount then
      let joy := min 1 (posCount * (3/10))
      [("joy".data, joy), ("fear".data, 0), ("anger".data, 0),
       ("sadness".data, 0), ("surprise".data, 0), ("neutral".data, 1 - joy)]
    else
      [("joy".data, 0), ("fear".data, 0), ("anger".data, 0),
       ("sadness".data, 0), ("surprise".data, 0), ("neutral".data, 1)]
  let off := emotion_offset em
  { score := clamp01 (bs.1 + off), sentiment := bs.2, base := bs.1,
    offset := off, emotions := em }

/-- Sample raw record for concrete instantiations. -/
def mkRec (d : String) (a : ℚ) (ty cat : String) : RawTxn :=
  { date := some d.data, amount := some a, rtype := some ty.data,
    category := some cat.data, title := some "t".data }

/-! ## Helper lemmas -/

theorem findSome_mem {α β} {f : α → Option β} {l : List α} {b : β}
    (h : l.findSome? f = some b) : ∃ a ∈ l, f a = some b := by
  induction l with
  | nil => simp [List.findSome?] at h
  | cons x xs ih =>
    rw [List.findSome?_cons] at h
    cases hf : f x with
    | some y =>
      rw [hf] at h
      exact ⟨x, List.mem_cons_self x xs, hf.trans h⟩
    | none =>
      rw [hf] at h
      obtain ⟨a, ha, hfa⟩ := ih h
      exact ⟨a, List.mem_cons_of_mem x ha, hfa⟩

theorem findSome_first {α β} {f : α → Option β} {l1 : List α} {p : α}
    (l2 : List α) {b : β} (h1 : ∀ q ∈ l1, f q = none) (h2 : f p = some b) :
    (l1 ++ p :: l2).findSome? f = some b := by
  induction l1 with
  | nil => simp [List.findSome?_cons, h2]
  | cons x xs ih =>
    rw [List.cons_append, List.findSome?_cons, h1 x (List.mem_cons_self x xs)]
    exact ih (fun q hq => h1 q (List.mem_cons_of_mem x hq))

theorem insertDescBy_perm {α} (key : α → ℚ) (x : α) (l : List α) :
    List.Perm (insertDescBy key x l) (x :: l) := by
  induction l with
  | nil => exact List.Perm.refl _
  | cons y ys ih =>
    rw [insertDescBy]
    split
    · exact (ih.cons y).trans (List.Perm.swap x y ys)
    · exact List.Perm.refl _

theorem sortDescBy_perm {α} (key : α → ℚ) (l : List α) :
    List.Perm (sortDescBy key l) l := by
  induction l with
  | nil => exact List.Perm.refl _
  | cons x xs ih =>
    exact (insertDescBy_perm key x (sortDescBy key xs)).trans (ih.cons x)

theorem mem_sortDescBy {α} {key : α → ℚ} {l : List α} {a : α} :
    a ∈ sortDescBy key l ↔ a ∈ l :=
  (sortDescBy_perm key l).mem_iff

theorem insertDescBy_pairwise {α} {key : α → ℚ} {x : α} {l : List α}
    (h : l.Pairwise (fun a b => key b ≤ key a)) :
    (insertDescBy key x l).Pairwise (fun a b => key b ≤ key a) := by
  induction l with
  | nil => simp [insertDescBy]
  | cons y ys ih =>
    rw [insertDescBy]
    rw [List.pairwise_cons] at h
    split
    · rename_i hlt
      refine List.pairwise_cons.mpr ⟨?_, ih h.2⟩
      intro b hb
      rcases List.mem_cons.mp ((insertDescBy_perm key x ys).mem_iff.mp hb) with hb | hb
      · exact hb ▸ le_of_lt hlt
      · exact h.1 b hb
    · rename_i hge
      push_neg at hge
      refine List.pairwise_cons.mpr ⟨?_, List.pairwise_cons.mpr ⟨h.1, h.2⟩⟩
      intro b hb
      rcases List.mem_cons.mp hb with hb | hb
      · exact hb ▸ hge
      · exact le_trans (h.1 b hb) hge

theorem sortDescBy_pairwise {α} (key : α → ℚ) (l : List α) :
    (sortDescBy key l).Pairwise (fun a b => key b ≤ key a) := by
  induction l with
  | nil => simp [sortDescBy]
  | cons x xs ih => exact insertDescBy_pairwise ih

theorem insertDescBy_filter_key {α} (key : α → ℚ) (x : α) (l : List α)
    (k : ℚ) :
    (insertDescBy key x l).filter (fun a => key a == k) =
      if key x = k then x :: l.filter (fun a => key a == k)
      else l.filter (fun a => key a == k) := by
  induction l with
  | nil =>
    simp only [insertDescBy, List.filter_cons, List.filter_nil]
    by_cases hx : key x = k
    · simp [hx]
    · simp [hx]
  | cons y ys ih =>
    rw [insertDescBy]
    by_cases hlt : key x < key y
    · rw [if_pos hlt, List.filter_cons, ih]
      by_cases hy : key y = k
      · have hx : ¬ key x = k := by
          intro hxk
          rw [hxk, hy] at hlt
          exact lt_irrefl k hlt
        simp [hy, hx, List.filter_cons]
      · by_cases hx : key x = k
        · simp [hy, hx, List.filter_cons]
        · simp [hy, hx, List.filter_cons]
    · rw [if_neg hlt, List.filter_cons]
      by_cases hx : key x = k
      · simp [hx, List.filter_cons]
      · simp [hx, List.filter_cons]

theorem sortDescBy_filter_key {α} (key : α → ℚ) (l : List α) (k : ℚ) :
    (sortDescBy key l).filter (fun a => key a == k) =
      l.filter (fun a => key a == k) := by
  induction l with
  | nil => rfl
  | cons x xs ih =>
    rw [sortDescBy, insertDescBy_filter_key, List.filter_cons]
    by_cases hx : key x = k
    · simp [hx, ih]
    · simp [hx, ih]

theorem pairwise_take_drop {α} {R : α → α → Prop} {l : List α} (n : Nat)
    (h : l.Pairwise R) :
    ∀ a ∈ l.take n, ∀ b ∈ l.drop n, R a b := by
  have := List.take_append_drop n l
  rw [← this] at h
  exact fun a ha b hb => (List.pairwise_append.mp h).2.2 a ha b hb

theorem sumVals_append (a b : List (List Char × ℚ)) :
    sumVals (a ++ b) = sumVals a + sumVals b := by
  simp [sumVals]

theorem sumVals_take_le (l : List (List Char × ℚ)) (n : Nat)
    (h : ∀ p ∈ l, 0 ≤ p.2) : sumVals (l.take n) ≤ sumVals l := by
  conv_rhs => rw [← List.take_append_drop n l]
  rw [sumVals_append]
  have : 0 ≤ sumVals (l.drop n) := by
    refine List.sum_nonneg ?_
    intro x hx
    simp only [List.mem_map] at hx
    obtain ⟨p, hp, rfl⟩ := hx
    exact h p (List.mem_of_mem_drop hp)
  linarith

theorem sumVals_perm {a b : List (List Char × ℚ)} (h : List.Perm a b) :
    sumVals a = sumVals b :=
  (h.map Prod.snd).sum_eq

theorem catAdd_sumVals (acc : List (List Char × ℚ)) (cat : List Char)
    (amt : ℚ) : sumVals (catAdd acc cat amt) = sumVals acc + amt := by
  induction acc with
  | nil => simp [catAdd, sumVals]
  | cons kv rest ih =>
    obtain ⟨c, v⟩ := kv
    rw [catAdd]
    split
    · simp [sumVals]
      ring
    · simp only [sumVals, List.map_cons, List.sum_cons] at ih ⊢
      rw [ih]
      ring

theorem catAdd_nonneg {acc : List (List Char × ℚ)} {cat : List Char}
    {amt : ℚ} (hacc : ∀ p ∈ acc, 0 ≤ p.2) (hamt : 0 ≤ amt) :
    ∀ p ∈ catAdd acc cat amt, 0 ≤ p.2 := by
  induction acc with
  | nil =>
    intro p hp
    simp only [catAdd, List.mem_singleton] at hp
    exact hp ▸ hamt
  | cons kv rest ih =>
    obtain ⟨c, v⟩ := kv
    intro p hp
    rw [catAdd] at hp
    split at hp
    · rcases List.mem_cons.mp hp with hp | hp
      · subst hp
        have := hacc (c, v) (List.mem_cons_self _ _)
        simp only at this ⊢
        linarith
      · exact hacc p (List.mem_cons_of_mem _ hp)
    · rcases List.mem_cons.mp hp with hp | hp
      · exact hp ▸ hacc (c, v) (List.mem_cons_self _ _)
      · exact ih (fun q hq => hacc q (List.mem_cons_of_mem _ hq)) p hp

theorem sum_by_category_total (l : List Txn) :
    sumVals (sum_by_category l) = sumAmounts l := by
  suffices h : ∀ acc, sumVals (l.foldl (fun acc t => catAdd acc t.category t.amount) acc)
      = sumVals acc + sumAmounts l by
    have := h []
    simpa [sum_by_category, sumVals] using this
  induction l with
  | nil => intro acc; simp [sumAmounts]
  | cons t ts ih =>
    intro acc
    rw [List.foldl_cons, ih, catAdd_sumVals]
    simp [sumAmounts]
    ring

theorem sum_by_category_nonneg {l : List Txn}
    (h : ∀ t ∈ l, 0 ≤ t.amount) :
    ∀ p ∈ sum_by_category l, 0 ≤ p.2 := by
  suffices hs : ∀ acc, (∀ p ∈ acc, 0 ≤ p.2) →
      ∀ p ∈ l.foldl (fun acc t => catAdd acc t.category t.amount) acc, 0 ≤ p.2 by
    exact hs [] (by simp)
  induction l with
  | nil => intro acc hacc; simpa using hacc
  | cons t ts ih =>
    intro acc hacc
    rw [List.foldl_cons]
    exact ih (fun u hu => h u (List.mem_cons_of_mem _ hu))
      _ (catAdd_nonneg hacc (h t (List.mem_cons_self _ _)))

theorem sumAmounts_nonneg {l : List Txn} (h : ∀ t ∈ l, 0 ≤ t.amount) :
    0 ≤ sumAmounts l := by
  refine List.sum_nonneg ?_
  intro x hx
  simp only [List.mem_map] at hx
  obtain ⟨t, ht, rfl⟩ := hx
  exact h t ht

theorem sumVals_map_div (em : List (List Char × ℚ)) (c : ℚ) :
    sumVals (em.map (fun kv => (kv.1, kv.2 / c))) = sumVals em / c := by
  induction em with
  | nil => simp [sumVals]
  | cons kv rest ih =>
    simp only [sumVals, List.map_cons, List.sum_cons] at ih ⊢
    rw [ih]
    ring

theorem percentStep_range {msg : List Char} {p : RE} {v : ℚ}
    (h : percentStep msg p = some v) : 0 < v ∧ v < 100 := by
  unfold percentStep at h
  rcases h1 : searchRE false p msg with _ | ⟨st, en, g⟩
  · rw [h1] at h
    exact absurd h (by simp)
  · rw [h1] at h
    rcases g with _ | cap
    · simp at h
    · simp only at h
      rcases h2 : parseDec (replaceCommaDot cap) with _ | w
      · rw [h2] at h
        simp at h
      · rw [h2] at h
        simp only at h
        split at h
        · rename_i hw
          injection h with h
          exact h ▸ hw
        · exact absurd h (by simp)

theorem clamp01_bounds (x : ℚ) : 0 ≤ clamp01 x ∧ clamp01 x ≤ 1 :=
  ⟨le_max_left 0 _, max_le (by norm_num) (min_le_left 1 x)⟩

theorem cutsSum_eq (l : List (List Char × ℚ)) (c : ℚ) :
    (((l.map (fun na => (na.1, na.2, na.2 * c))).map
      (fun x : List Char × ℚ × ℚ => x.2.2)).sum) = sumVals l * c := by
  induction l with
  | nil => simp [sumVals]
  | cons kv rest ih =>
    simp only [List.map_cons, List.sum_cons, sumVals] at ih ⊢
    rw [ih]
    ring

theorem sumAmounts_filter_nonneg (l : List Txn) (p : Txn → Bool)
    (hp : ∀ t, p t = true → 0 < t.amount) : 0 ≤ sumAmounts (l.filter p) := by
  refine sumAmounts_nonneg ?_
  intro t ht
  exact le_of_lt (hp t (List.mem_filter.mp ht).2)

theorem parse_transactions_append (l1 l2 : List RawTxn) :
    parse_transactions (l1 ++ l2) = parse_transactions l1 ++ parse_transactions l2 := by
  simp [parse_transactions, List.filterMap_append]

theorem parse_record_amount {r : RawTxn} {t : Txn} (h : parse_record r = some t) :
    t.amount = r.amount.getD 0 := by
  simp only [parse_record] at h
  rcases hd : parseDateRaw (r.date.getD []) with _ | d
  · rw [hd] at h
    exact absurd h (by simp)
  · rw [hd] at h
    simp only at h
    split at h
    · injection h with h
      rw [← h]
    · exact absurd h (by simp)

theorem filter_parse_middle {r : RawTxn} (h : r.amount.getD 0 ≤ 0)
    (p : Txn → Bool) (hp : ∀ t, p t = true → 0 < t.amount)
    (l1 l2 : List RawTxn) :
    (parse_transactions (l1 ++ r :: l2)).filter p
      = (parse_transactions (l1 ++ l2)).filter p := by
  have hcons : parse_transactions (r :: l2) =
      (parse_record r).toList ++ parse_transactions l2 := by
    unfold parse_transactions
    rw [List.filterMap_cons]
    cases parse_record r <;> simp
  rw [parse_transactions_append, parse_transactions_append, hcons,
    List.filter_append, List.filter_append, List.filter_append]
  have hmid : ((parse_record r).toList).filter p = [] := by
    rcases hr : parse_record r with _ | t
    · rfl
    · have ht : t.amount ≤ 0 := (parse_record_amount hr) ▸ h
      have : p t = false := by
        cases hpt : p t
        · rfl
        · exact absurd (hp t hpt) (not_lt.mpr ht)
      simp [Option.toList, this]
  rw [hmid]
  simp

/-! ## Claim theorems -/

/-- C3: the source's own thousand-unit pattern treats `тысяч`, `тыс`,
Cyrillic `к` and Latin `k` as thousand-class tokens, and the claim (with
the spec) says every amount matched with a thousand-class token is
multiplied by 1000 before the transaction amount is finalized.  The
example `'5 тысяч рублей'` indeed finalizes to 5000, but the multiplier
test only checks the Cyrillic letter, so the Latin-`k` occurrence `'5k'`
is matched as a thousand-class amount yet finalized as 5, not 5000 —
the code contradicts its own pattern's intent. -/
theorem C3_thousand_multiplier :
    (simple_transaction_extraction 0 "5 тысяч рублей".data).map STxn.amount
        = [some 5000] ∧
    (simple_transaction_extraction 0 "2 млн".data).map STxn.amount
        = [some 2000000] ∧
    (simple_transaction_extraction 0 "5k".data).map STxn.amount
        = [some 5] := by
  decide

/-- C4 (as stated) is false: on `'отдал 500'` no unit pattern matches,
yet extraction does not emit the null-amount/0.3-confidence placeholder —
the bare-number fallback finds 500 and emits a normal transaction with
confidence 0.6. -/
theorem C4_counterexample :
    unitAmounts "отдал 500".data = [] ∧
    (simple_transaction_extraction 0 "отдал 500".data).map
        (fun t => (t.amount, t.confidence)) = [(some 500, 3/5)] := by
  decide

/-- C4 (amended): when no amount occurrence is found at all — neither by a
unit pattern nor by the bare-number fallback — extraction emits exactly one
transaction with `amount = none`, confidence 0.3, the keyword-derived
default type and category; and the caller never receives an empty
transaction list. -/
theorem C4_no_amount_placeholder : ∀ (today : Int) (msg : List Char),
    (amountsWithContext msg = [] →
      (simple_transaction_extraction today msg).length = 1 ∧
      ∀ t ∈ simple_transaction_extraction today msg,
        t.amount = none ∧ t.confidence = 3/10
          ∧ t.ttype = (if kwAny incomeKeywords (lowerStr msg) then incomeT else expenseT)
          ∧ t.category = detectCategoryIn (lowerStr msg)) ∧
    simple_transaction_extraction today msg ≠ [] := by
  intro today msg
  constructor
  · intro h
    have hemp : (amountsWithContext msg).isEmpty = true := by
      rw [h]
      rfl
    simp only [simple_transaction_extraction, hemp, if_true]
    refine ⟨rfl, ?_⟩
    intro t ht
    rw [List.mem_singleton] at ht
    subst ht
    refine ⟨rfl, rfl, ?_, rfl⟩
    cases hk : kwAny incomeKeywords (lowerStr msg) <;> simp only [hk] <;> rfl
  · by_cases h : (amountsWithContext msg).isEmpty
    · simp only [simple_transaction_extraction, h, if_true]
      exact List.cons_ne_nil _ _
    · simp only [simple_transaction_extraction, h, if_false]
      have hne : amountsWithContext msg ≠ [] := fun hn => h (by rw [hn]; rfl)
      obtain ⟨a, as, has⟩ := List.exists_cons_of_ne_nil hne
      rw [has]
      simp

/-- C4 witness: on `'привет'` (no digits anywhere) the placeholder branch
fires and the transaction list is the non-empty singleton described by the
amended claim. -/
theorem C4_no_amount_placeholder_witness :
    (simple_transaction_extraction 0 "привет".data).length = 1 ∧
    (∀ t ∈ simple_transaction_extraction 0 "привет".data,
      t.amount = none ∧ t.confidence = 3/10
        ∧ t.ttype = (if kwAny incomeKeywords (lowerStr "привет".data) then incomeT else expenseT)
        ∧ t.category = detectCategoryIn (lowerStr "привет".data)) ∧
    simple_transaction_extraction 0 "привет".data ≠ [] :=
  have h := C4_no_amount_placeholder 0 "привет".data
  have h1 := h.1 (by decide)
  ⟨h1.1, h1.2, h.2⟩

/-- C5 (as stated) is false in its largest-expenses part: with three
equal-amount expenses supplied in the order of dates
(2024-09-30, 2024-09-26, 2024-09-28) inside the current 7-day window,
`biggest` lists them in input order, whose date sequence first decreases
and then increases — so ties are not broken by date in either
direction. -/
theorem C5_counterexample :
    (try_answer_report (civilToDays 2024 9 30) 7 none
      [{ date := some "2024-09-30".data, amount := some 100,
         rtype := some "expense".data, category := some "A".data,
         title := some "a".data },
       { date := some "2024-09-26".data, amount := some 100,
         rtype := some "expense".data, category := some "B".data,
         title := some "b".data },
       { date := some "2024-09-28".data, amount := some 100,
         rtype := some "expense".data, category := some "C".data,
         title := some "c".data }]).biggest.map Txn.amount = [100, 100, 100] ∧
    (try_answer_report (civilToDays 2024 9 30) 7 none
      [{ date := some "2024-09-30".data, amount := some 100,
         rtype := some "expense".data, category := some "A".data,
         title := some "a".data },
       { date := some "2024-09-26".data, amount := some 100,
         rtype := some "expense".data, category := some "B".data,
         title := some "b".data },
       { date := some "2024-09-28".data, amount := some 100,
         rtype := some "expense".data, category := some "C".data,
         title := some "c".data }]).biggest.map Txn.date =
      [civilToDays 2024 9 30, civilToDays 2024 9 26, civilToDays 2024 9 28] ∧
    civilToDays 2024 9 26 < civilToDays 2024 9 28 ∧
    civilToDays 2024 9 28 < civilToDays 2024 9 30 := by
  decide

/-- C6: per context window, the type is income exactly when an income
keyword is present and no expense keyword is; any expense keyword forces
expense; and with neither keyword set matching the default is expense. -/
theorem C6_type_resolution : ∀ ctx : List Char,
    (determine_transaction_type ctx = incomeT ↔
      kwAny incomeKeywords (lowerStr ctx) = true
        ∧ kwAny expenseKeywords (lowerStr ctx) = false) ∧
    (kwAny expenseKeywords (lowerStr ctx) = true →
      determine_transaction_type ctx = expenseT) ∧
    (kwAny incomeKeywords (lowerStr ctx) = false →
      kwAny expenseKeywords (lowerStr ctx) = false →
      determine_transaction_type ctx = expenseT) := by
  intro ctx
  cases hI : kwAny incomeKeywords (lowerStr ctx) <;>
    cases hE : kwAny expenseKeywords (lowerStr ctx) <;>
      simp [determine_transaction_type, hI, hE, incomeT, expenseT]

/-- C6 witness: `'купил хлеб'` contains an expense keyword and is typed
as an expense; `'получил подарок'` contains only income keywords and is
typed as income. -/
theorem C6_type_resolution_witness :
    determine_transaction_type "купил хлеб".data = expenseT ∧
    determine_transaction_type "получил подарок".data = incomeT :=
  ⟨(C6_type_resolution "купил хлеб".data).2.1 (by decide),
   ((C6_type_resolution "получил подарок".data).1).mpr (by decide)⟩

/-- C7: percentage extraction tries the ordered pattern list and returns
the first pattern whose first match parses to a value strictly inside
`(0, 100)`; an out-of-range or unparsable match only forfeits its own
pattern.  Concretely `'сократить на 30%'` and `'30% сократить'` both
yield 30 and `'150%'` yields nothing. -/
theorem C7_percent_extraction :
    extract_percent "сократить на 30%".data = some 30 ∧
    extract_percent "30% сократить".data = some 30 ∧
    extract_percent "150%".data = none ∧
    (∀ (msg : List Char) (v : ℚ), extract_percent msg = some v → 0 < v ∧ v < 100) ∧
    (∀ (msg : List Char) (l1 : List RE) (p : RE) (l2 : List RE) (v : ℚ),
      percentPatterns = l1 ++ p :: l2 →
      (∀ q ∈ l1, percentStep msg q = none) → percentStep msg p = some v →
      extract_percent msg = some v) := by
  refine ⟨by decide, by decide,
    by decide, ?_, ?_⟩
  · intro msg v h
    obtain ⟨p, _, hp⟩ := findSome_mem h
    exact percentStep_range hp
  · intro msg l1 p l2 v hpat h1 h2
    unfold extract_percent
    rw [hpat]
    exact findSome_first l2 h1 h2

/-- C7 witness: `'на 12,5%'` extracts 12.5, which the range part of the
theorem confirms to lie strictly inside `(0, 100)`. -/
theorem C7_percent_extraction_witness : 0 < (25/2 : ℚ) ∧ (25/2 : ℚ) < 100 :=
  C7_percent_extraction.2.2.2.1 "на 12,5%".data (25/2) (by decide)

/-- C9: in both paths of `analyze_friendliness` the returned score is the
base score plus the dot product of the emotion vector with the fixed
weight table (joy +0.4, surprise +0.1, neutral 0, sadness −0.2,
fear −0.15, anger −0.5), clamped to `[0, 1]`; hence it always lies in
`[0, 1]`. -/
theorem C9_friendliness_clamp :
    (∀ (base : ℚ) (em : List (List Char × ℚ)),
      friendliness_final base em =
        max 0 (min 1 (base +
          (lookupVal em "joy".data * (2/5) + lookupVal em "surprise".data * (1/10)
            + lookupVal em "neutral".data * 0 + lookupVal em "sadness".data * (-(1/5))
            + lookupVal em "fear".data * (-(3/20)) + lookupVal em "anger".data * (-(1/2))))) ∧
      0 ≤ friendliness_final base em ∧ friendliness_final base em ≤ 1) ∧
    (∀ text : List Char,
      (analyze_friendliness_fallback text).score =
        friendliness_final (analyze_friendliness_fallback text).base
          (analyze_friendliness_fallback text).emotions ∧
      0 ≤ (analyze_friendliness_fallback text).score ∧
      (analyze_friendliness_fallback text).score ≤ 1) := by
  have hoff : ∀ em : List (List Char × ℚ), emotion_offset em =
      lookupVal em "joy".data * (2/5) + lookupVal em "surprise".data * (1/10)
        + lookupVal em "neutral".data * 0 + lookupVal em "sadness".data * (-(1/5))
        + lookupVal em "fear".data * (-(3/20)) + lookupVal em "anger".data * (-(1/2)) := by
    intro em
    simp only [emotion_offset, emotionWeights, List.map_cons, List.map_nil,
      List.sum_cons, List.sum_nil]
    ring
  constructor
  · intro base em
    refine ⟨?_, clamp01_bounds _⟩
    rw [friendliness_final, hoff, clamp01]
  · intro text
    refine ⟨rfl, ?_⟩
    exact clamp01_bounds _

/-- C8 (as stated) is false: on a neutral text such as `'привет'` the
local keyword heuristic of `analyze_emotions` returns its default vector
`{joy 0, fear 0, anger 0, sadness 0, surprise 0, neutral 0.5}`, whose
entries sum to 0.5, not 1.0. -/
theorem C8_counterexample :
    sumVals (analyze_emotions_fallback "привет".data) = 1/2 ∧
    ¬ sumVals (analyze_emotions_fallback "привет".data) = 1 := by
  decide

/-- C8 (amended): the emotion vectors are non-negative, and they sum to
1.0 in the external-AI path after normalization whenever the raw total is
positive, and in the keyword heuristic whenever one of its keyword classes
matches; the heuristic's no-keyword default instead sums to 0.5. -/
theorem C8_emotion_normalization :
    (∀ em : List (List Char × ℚ), 0 < sumVals em →
      sumVals (normalize_emotions em) = 1) ∧
    (∀ em : List (List Char × ℚ), (∀ p ∈ em, 0 ≤ p.2) →
      ∀ p ∈ normalize_emotions em, 0 ≤ p.2) ∧
    (∀ text : List Char,
      (∀ p ∈ analyze_emotions_fallback text, 0 ≤ p.2) ∧
      ((kwAny angerKw (lowerStr text) = true ∨ kwAny joyKw (lowerStr text) = true
          ∨ kwAny sadKw (lowerStr text) = true) →
        sumVals (analyze_emotions_fallback text) = 1) ∧
      ((kwAny angerKw (lowerStr text) = false ∧ kwAny joyKw (lowerStr text) = false
          ∧ kwAny sadKw (lowerStr text) = false) →
        sumVals (analyze_emotions_fallback text) = 1/2)) := by
  refine ⟨?_, ?_, ?_⟩
  · intro em h
    by_cases he : em.isEmpty
    · rw [List.isEmpty_iff.mp he] at h
      simp [sumVals] at h
    · have hne : (if em.isEmpty then (1 : ℚ) else sumVals em) = sumVals em := by
        simp [he]
      simp only [normalize_emotions, hne, if_pos h]
      rw [sumVals_map_div]
      exact div_self (ne_of_gt h)
  · intro em hnn p hp
    cases he : em.isEmpty
    case false =>
      simp only [normalize_emotions, he, Bool.false_eq_true, if_false] at hp
      split at hp
      · rename_i h0
        obtain ⟨q, hq, rfl⟩ := List.mem_map.mp hp
        exact div_nonneg (hnn q hq) (le_of_lt h0)
      · exact hnn p hp
    case true =>
      rw [List.isEmpty_iff.mp he] at hp
      simp [normalize_emotions] at hp
  · intro text
    cases hA : kwAny angerKw (lowerStr text) <;>
      cases hJ : kwAny joyKw (lowerStr text) <;>
        cases hS : kwAny sadKw (lowerStr text) <;>
          refine ⟨?_, ?_, ?_⟩ <;>
            simp [analyze_emotions_fallback, hA, hJ, hS, sumVals] <;>
              norm_num

/-- C8 witness: a concrete external vector with total 4 normalizes to sum
1 with non-negative entries, and the heuristic on `'спасибо'` (a joy
keyword) sums to 1. -/
theorem C8_emotion_normalization_witness :
    sumVals (normalize_emotions [("joy".data, 3), ("neutral".data, 1)]) = 1 ∧
    (∀ p ∈ normalize_emotions [("joy".data, 3), ("neutral".data, 1)], 0 ≤ p.2) ∧
    sumVals (analyze_emotions_fallback "спасибо".data) = 1 :=
  ⟨C8_emotion_normalization.1 _ (by decide),
   C8_emotion_normalization.2.1 _ (by decide),
   (C8_emotion_normalization.2.2 "спасибо".data).2.1 (Or.inr (Or.inl (by decide)))⟩

/-- C2: the previous window is `[start - d, start - 1]`; the percentage
change `(current - previous) / previous * 100` is present in the report
exactly when the previous window's expense total is strictly positive,
and the (total) computation never divides by zero. -/
theorem C2_trend_previous_window :
    ∀ (today : Int) (days : Nat) (percent : Option ℚ) (records : List RawTxn),
    ((try_answer_report today days percent records).deltaPct = none ↔
      (try_answer_report today days percent records).prevTotal = 0) ∧
    (∀ v, (try_answer_report today days percent records).deltaPct = some v →
      v = ((try_answer_report today days percent records).totalExp
            - (try_answer_report today days percent records).prevTotal)
          / (try_answer_report today days percent records).prevTotal * 100) ∧
    (∀ t, t ∈ (try_answer_report today days percent records).prevTxns ↔
      (t ∈ parse_transactions records ∧
        ((try_answer_report today days percent records).startD - (days : Int) ≤ t.date
          ∧ t.date ≤ (try_answer_report today days percent records).startD - 1)
        ∧ t.ttype = expenseT ∧ 0 < t.amount)) := by
  intro today days percent records
  have hnn : 0 ≤ (try_answer_report today days percent records).prevTotal := by
    dsimp only [try_answer_report]
    refine sumAmounts_filter_nonneg _ _ ?_
    intro t ht
    simp only [Bool.and_eq_true, decide_eq_true_eq] at ht
    exact ht.2
  refine ⟨?_, ?_, ?_⟩
  · dsimp only [try_answer_report] at hnn ⊢
    by_cases h : 0 < sumAmounts (List.filter (fun t =>
        txnInWindow (today - ((days : Int) - 1) - (days : Int))
            (today - ((days : Int) - 1) - 1) t
          && decide (t.ttype = expenseT) && decide (0 < t.amount))
        (parse_transactions records))
    · rw [if_pos h]
      constructor
      · intro hc
        exact absurd hc (Option.some_ne_none _)
      · intro h0
        rw [h0] at h
        exact absurd h (lt_irrefl 0)
    · rw [if_neg h]
      exact ⟨fun _ => le_antisymm (not_lt.mp h) hnn, fun _ => rfl⟩
  · intro v hv
    dsimp only [try_answer_report] at hv ⊢
    split at hv
    · injection hv with hv
      exact hv.symm
    · exact absurd hv (by simp)
  · intro t
    dsimp only [try_answer_report]
    rw [List.mem_filter]
    simp only [txnInWindow, Bool.and_eq_true, decide_eq_true_eq]
    tauto

/-- C2 witness: with the current 7-day window ending 2024-09-30 holding
300 of expenses and the previous window `[2024-09-17, 2024-09-23]`
holding 50, the reported change is `(300 - 50)/50*100`. -/
theorem C2_trend_previous_window_witness :
    (500 : ℚ) =
      ((try_answer_report (civilToDays 2024 9 30) 7 none
          [mkRec "2024-09-30" 300 "expense" "A",
           mkRec "2024-09-20" 50 "expense" "A"]).totalExp
        - (try_answer_report (civilToDays 2024 9 30) 7 none
          [mkRec "2024-09-30" 300 "expense" "A",
           mkRec "2024-09-20" 50 "expense" "A"]).prevTotal)
        / (try_answer_report (civilToDays 2024 9 30) 7 none
          [mkRec "2024-09-30" 300 "expense" "A",
           mkRec "2024-09-20" 50 "expense" "A"]).prevTotal * 100 :=
  (C2_trend_previous_window (civilToDays 2024 9 30) 7 none
    [mkRec "2024-09-30" 300 "expense" "A",
     mkRec "2024-09-20" 50 "expense" "A"]).2.1 500 (by decide)

theorem savings_cuts_le (p : ℚ) (hp : 0 < p) (l : List Txn)
    (hl : ∀ t ∈ l, 0 < t.amount) :
    (((build_savings_plan p (sumAmounts l)
        ((sortDescBy Prod.snd (sum_by_category l)).take 5)).cuts.map
      (fun x : List Char × ℚ × ℚ => x.2.2)).sum)
      ≤ (build_savings_plan p (sumAmounts l)
          ((sortDescBy Prod.snd (sum_by_category l)).take 5)).savings := by
  have hnn : ∀ q ∈ sortDescBy Prod.snd (sum_by_category l), 0 ≤ q.2 := by
    intro q hq
    exact sum_by_category_nonneg (fun t ht => le_of_lt (hl t ht)) q
      (mem_sortDescBy.mp hq)
  have htake : sumVals (((sortDescBy Prod.snd (sum_by_category l)).take 5).take 3)
      ≤ sumAmounts l := by
    rw [List.take_take]
    norm_num
    calc sumVals ((sortDescBy Prod.snd (sum_by_category l)).take 3)
        ≤ sumVals (sortDescBy Prod.snd (sum_by_category l)) :=
          sumVals_take_le _ 3 hnn
      _ = sumVals (sum_by_category l) := sumVals_perm (sortDescBy_perm _ _)
      _ = sumAmounts l := sum_by_category_total l
  simp only [build_savings_plan]
  rw [cutsSum_eq]
  have hsav : sumAmounts l - sumAmounts l * (1 - p / 100)
      = sumAmounts l * (p / 100) := by ring
  rw [hsav]
  exact mul_le_mul_of_nonneg_right htake (div_nonneg (le_of_lt hp) (by norm_num))

/-- C1: the savings plan computes `target = T*(1 - p/100)` and
`savings = T - target`, each per-category cut over the top three
categories is `amount * p/100`; with `T = 10000` and `p = 20` the plan is
target 8000 and savings 2000; the sum of the top-3 category cuts never
exceeds the aggregate savings; and a percentage outside `(0, 100)` is
never extracted, in which case no savings plan is produced. -/
theorem C1_savings_plan :
    ((build_savings_plan 20 10000 []).target = 8000 ∧
      (build_savings_plan 20 10000 []).savings = 2000) ∧
    (∀ (p T : ℚ) (cats : List (List Char × ℚ)),
      (build_savings_plan p T cats).target = T * (1 - p / 100) ∧
      (build_savings_plan p T cats).savings = T - T * (1 - p / 100) ∧
      ∀ x ∈ (build_savings_plan p T cats).cuts, x.2.2 = x.2.1 * (p / 100)) ∧
    (∀ (msg : List Char) (p : ℚ), extract_percent msg = some p → 0 < p ∧ p < 100) ∧
    (∀ (today : Int) (days : Nat) (records : List RawTxn),
      (try_answer_report today days none records).savingsPlan = none) ∧
    (∀ (today : Int) (days : Nat) (records : List RawTxn) (p : ℚ)
        (msg : List Char) (plan : PlanData),
      extract_percent msg = some p →
      (try_answer_report today days (some p) records).savingsPlan = some plan →
      ((plan.cuts.map (fun x : List Char × ℚ × ℚ => x.2.2)).sum ≤ plan.savings)) := by
  refine ⟨⟨by decide, by decide⟩, ?_, ?_, ?_, ?_⟩
  · intro p T cats
    refine ⟨rfl, rfl, ?_⟩
    intro x hx
    simp only [build_savings_plan] at hx
    obtain ⟨na, _, rfl⟩ := List.mem_map.mp hx
    rfl
  · intro msg p h
    obtain ⟨q, _, hq⟩ := findSome_mem h
    exact percentStep_range hq
  · intro today days records
    rfl
  · intro today days records p msg plan hper hplan
    obtain ⟨q, _, hq⟩ := findSome_mem hper
    have hp : 0 < p ∧ p < 100 := percentStep_range hq
    dsimp only [try_answer_report] at hplan
    split at hplan
    · rename_i hTE
      injection hplan with hplan
      subst hplan
      refine savings_cuts_le p hp.1 _ ?_
      intro t ht
      have := (List.mem_filter.mp ht).2
      simp only [Bool.and_eq_true, decide_eq_true_eq] at this
      exact this.2
    · exact absurd hplan (by simp)

/-- C1 witness: `'сократить на 20%'` extracts 20, which is inside
`(0, 100)`, and with 300 of expenses over three categories the plan's
three 20-percent cuts sum to at most its savings figure. -/
theorem C1_savings_plan_witness :
    (0 < (20 : ℚ) ∧ (20 : ℚ) < 100) ∧
    ((({ target := 240, savings := 60,
         cuts := [("A".data, 100, 20), ("B".data, 100, 20), ("C".data, 100, 20)]
       } : PlanData).cuts.map (fun x : List Char × ℚ × ℚ => x.2.2)).sum
      ≤ ({ target := 240, savings := 60,
           cuts := [("A".data, 100, 20), ("B".data, 100, 20), ("C".data, 100, 20)]
         } : PlanData).savings) :=
  ⟨C1_savings_plan.2.2.1 "сократить на 20%".data 20 (by decide),
   C1_savings_plan.2.2.2.2 (civilToDays 2024 9 30) 7
     [mkRec "2024-09-30" 100 "expense" "A",
      mkRec "2024-09-29" 100 "expense" "B",
      mkRec "2024-09-28" 100 "expense" "C"] 20 "сократить на 20%".data
     { target := 240, savings := 60,
       cuts := [("A".data, 100, 20), ("B".data, 100, 20), ("C".data, 100, 20)] }
     (by decide) (by decide)⟩

/-- C5 (amended): the report's top-category list is the take-5 of a
descending stable sort of the per-category sums — sorted by sum, ties in
first-encountered order, every dropped entry no larger than every kept
one — and the largest-expense list likewise is the take-5 of a descending
stable sort of the window's expenses: ties among equal amounts keep the
transactions' input order (not date order). -/
theorem C5_top_lists :
    ∀ (today : Int) (days : Nat) (percent : Option ℚ) (records : List RawTxn)
      (rep : Report), rep = try_answer_report today days percent records →
    (rep.topCats = (sortDescBy Prod.snd rep.byCat).take 5 ∧
     List.Perm (sortDescBy Prod.snd rep.byCat) rep.byCat ∧
     rep.topCats.Pairwise (fun a b => b.2 ≤ a.2) ∧
     (∀ k, (sortDescBy Prod.snd rep.byCat).filter (fun q => q.2 == k)
        = rep.byCat.filter (fun q => q.2 == k)) ∧
     (∀ a ∈ rep.topCats, ∀ b ∈ (sortDescBy Prod.snd rep.byCat).drop 5, b.2 ≤ a.2)) ∧
    (rep.biggest = (sortDescBy Txn.amount rep.curExp).take 5 ∧
     List.Perm (sortDescBy Txn.amount rep.curExp) rep.curExp ∧
     rep.biggest.Pairwise (fun a b => b.amount ≤ a.amount) ∧
     (∀ k, (sortDescBy Txn.amount rep.curExp).filter (fun t => t.amount == k)
        = rep.curExp.filter (fun t => t.amount == k)) ∧
     (∀ a ∈ rep.biggest, ∀ b ∈ (sortDescBy Txn.amount rep.curExp).drop 5,
        b.amount ≤ a.amount)) := by
  intro today days percent records rep hrep
  subst hrep
  constructor
  · refine ⟨rfl, sortDescBy_perm _ _, ?_, ?_, ?_⟩
    · exact (sortDescBy_pairwise Prod.snd _).sublist (List.take_sublist 5 _)
    · intro k
      exact sortDescBy_filter_key Prod.snd _ k
    · intro a ha b hb
      exact pairwise_take_drop 5 (sortDescBy_pairwise Prod.snd _) a ha b hb
  · refine ⟨rfl, sortDescBy_perm _ _, ?_, ?_, ?_⟩
    · exact (sortDescBy_pairwise Txn.amount _).sublist (List.take_sublist 5 _)
    · intro k
      exact sortDescBy_filter_key Txn.amount _ k
    · intro a ha b hb
      exact pairwise_take_drop 5 (sortDescBy_pairwise Txn.amount _) a ha b hb

/-- C5 witness: with six categories of sums 60..10 in the current window,
the dropped sixth category's sum (10) is no larger than the kept top
category's sum (60). -/
theorem C5_top_lists_witness :
    (("F".data, (10 : ℚ)) : List Char × ℚ).2 ≤ (("A".data, (60 : ℚ)) : List Char × ℚ).2 :=
  ((C5_top_lists (civilToDays 2024 9 30) 7 none
      [mkRec "2024-09-30" 60 "expense" "A",
       mkRec "2024-09-29" 50 "expense" "B",
       mkRec "2024-09-28" 40 "expense" "C",
       mkRec "2024-09-27" 30 "expense" "D",
       mkRec "2024-09-26" 20 "expense" "E",
       mkRec "2024-09-25" 10 "expense" "F"] _ rfl).1.2.2.2.2)
    ("A".data, 60) (by decide) ("F".data, 10) (by decide)

/-- C10: only records with a parseable date, a type equal (after
lower-casing) to `expense` or `income`, and a positive amount contribute
to the analytics aggregates: every parsed transaction carries the
lower-cased type, the parsed date and the 0-defaulted amount of its
record, and removing any record whose (defaulted) amount is non-positive
leaves the whole report unchanged. -/
theorem C10_parse_filter_invariant :
    (∀ (r : RawTxn) (t : Txn), parse_record r = some t →
      t.ttype = lowerStr (r.rtype.getD []) ∧
      (t.ttype = expenseT ∨ t.ttype = incomeT) ∧
      parseDateRaw (r.date.getD []) = some t.date ∧
      t.amount = r.amount.getD 0) ∧
    (∀ (today : Int) (days : Nat) (percent : Option ℚ)
        (l1 l2 : List RawTxn) (r : RawTxn), r.amount.getD 0 ≤ 0 →
      try_answer_report today days percent (l1 ++ r :: l2)
        = try_answer_report today days percent (l1 ++ l2)) := by
  constructor
  · intro r t h
    simp only [parse_record] at h
    rcases hd : parseDateRaw (r.date.getD []) with _ | d
    · rw [hd] at h
      exact absurd h (by simp)
    · rw [hd] at h
      simp only at h
      split at h
      · rename_i hty
        injection h with h
        subst h
        refine ⟨rfl, ?_, rfl, rfl⟩
        exact hty
      · exact absurd h (by simp)
  · intro today days percent l1 l2 r h
    have hexp : ∀ l : List RawTxn,
        (List.filter (fun t => decide (t.ttype = expenseT) && decide (0 < t.amount))
          (List.filter (txnInWindow (today - ((days : Int) - 1)) today)
            (parse_transactions l)))
        = (parse_transactions l).filter (fun t =>
            decide (t.ttype = expenseT) && decide (0 < t.amount)
              && txnInWindow (today - ((days : Int) - 1)) today t) := by
      intro l
      rw [List.filter_filter]
    have hinc : ∀ l : List RawTxn,
        (List.filter (fun t => decide (t.ttype = incomeT) && decide (0 < t.amount))
          (List.filter (txnInWindow (today - ((days : Int) - 1)) today)
            (parse_transactions l)))
        = (parse_transactions l).filter (fun t =>
            decide (t.ttype = incomeT) && decide (0 < t.amount)
              && txnInWindow (today - ((days : Int) - 1)) today t) := by
      intro l
      rw [List.filter_filter]
    have e1 := filter_parse_middle h (fun t =>
        decide (t.ttype = expenseT) && decide (0 < t.amount)
          && txnInWindow (today - ((days : Int) - 1)) today t)
      (by
        intro t ht
        simp only [Bool.and_eq_true, decide_eq_true_eq] at ht
        exact ht.1.2) l1 l2
    have e2 := filter_parse_middle h (fun t =>
        decide (t.ttype = incomeT) && decide (0 < t.amount)
          && txnInWindow (today - ((days : Int) - 1)) today t)
      (by
        intro t ht
        simp only [Bool.and_eq_true, decide_eq_true_eq] at ht
        exact ht.1.2) l1 l2
    have e3 := filter_parse_middle h (fun t =>
        txnInWindow (today - ((days : Int) - 1) - (days : Int))
            (today - ((days : Int) - 1) - 1) t
          && decide (t.ttype = expenseT) && decide (0 < t.amount))
      (by
        intro t ht
        simp only [Bool.and_eq_true, decide_eq_true_eq] at ht
        exact ht.2) l1 l2
    dsimp only [try_answer_report]
    rw [hexp, hexp, hinc, hinc, e1, e2, e3]

/-- C10 witness: an upper-cased `EXPENSE` record parses to the lower-cased
type with its date and amount, and inserting a negative-amount record
into a transaction list leaves the whole report unchanged. -/
theorem C10_parse_filter_invariant_witness :
    (({ date := civilToDays 2024 1 2, amount := 5, category := "A".data,
         title := "t".data, ttype := "expense".data } : Txn).ttype
        = lowerStr ((mkRec "2024-01-02" 5 "EXPENSE" "A").rtype.getD []) ∧
      (({ date := civilToDays 2024 1 2, amount := 5, category := "A".data,
          title := "t".data, ttype := "expense".data } : Txn).ttype = expenseT ∨
       ({ date := civilToDays 2024 1 2, amount := 5, category := "A".data,
          title := "t".data, ttype := "expense".data } : Txn).ttype = incomeT) ∧
      parseDateRaw ((mkRec "2024-01-02" 5 "EXPENSE" "A").date.getD [])
        = some ({ date := civilToDays 2024 1 2, amount := 5, category := "A".data,
                  title := "t".data, ttype := "expense".data } : Txn).date ∧
      ({ date := civilToDays 2024 1 2, amount := 5, category := "A".data,
         title := "t".data, ttype := "expense".data } : Txn).amount
        = (mkRec "2024-01-02" 5 "EXPENSE" "A").amount.getD 0) ∧
    try_answer_report (civilToDays 2024 9 30) 7 none
        ([mkRec "2024-09-30" 100 "expense" "A"]
          ++ mkRec "2024-09-29" (-5) "expense" "A"
            :: [mkRec "2024-09-28" 30 "income" "W"])
      = try_answer_report (civilToDays 2024 9 30) 7 none
        ([mkRec "2024-09-30" 100 "expense" "A"]
          ++ [mkRec "2024-09-28" 30 "income" "W"]) :=
  ⟨C10_parse_filter_invariant.1 (mkRec "2024-01-02" 5 "EXPENSE" "A")
      { date := civilToDays 2024 1 2, amount := 5, category := "A".data,
        title := "t".data, ttype := "expense".data } (by decide),
   C10_parse_filter_invariant.2 (civilToDays 2024 9 30) 7 none
     [mkRec "2024-09-30" 100 "expense" "A"]
     [mkRec "2024-09-28" 30 "income" "W"]
     (mkRec "2024-09-29" (-5) "expense" "A") (by decide)⟩

end FinAssist
